import Mathlib

/-!
# Verification of `split_owned` (crate `split_owned`, `src/lib.rs`)

The crate provides one operation: `[T; N]::split_owned::<K, L>() -> ([T; K], [T; L])`,
which consumes an owned array of `N` elements and moves its elements into two owned
arrays of `K` and `L` elements, with a compile-time assertion `N == K + L`.

## Embedding

* A Rust array `[T; N]` is a `List T` of length `N`; the length hypotheses of the
  theorems play the role of the type-level constant `N`.
* `MaybeUninit<T>` is `Option T`: `some v` is a slot holding the value `v`,
  `none` is an uninitialized slot.  `MaybeUninit::new` is `some`,
  `MaybeUninit::uninit` is `none`.
* Fallible runtime behaviour (an out-of-bounds index, which would panic, or
  `assume_init` on an uninitialized slot, which would be undefined behaviour)
  is modelled by `Option`-valued results: `none` means the execution is not a
  normal return.
* The `const { assert!(N == K + L) }` block is modelled by `arity_check`; an
  instantiation for which it fails never runs, so `split_owned` yields no
  result (`none`) in that case.
-/

namespace SplitOwnedModel

/-- Model of `const { assert!(N == K + L, ...) }` in `split_owned`
(`src/lib.rs:90-92`): the build of an instantiation succeeds iff this is `true`. -/
def arity_check (N K L : Nat) : Bool :=
  N == K + L

/-- Model of `std::mem::swap(&mut dst[i], &mut src[j])` on two arrays of
`MaybeUninit<T>` slots.  Rust's index operation panics when out of bounds;
the panic is modelled by the `none` result. -/
def mem_swap {T : Type} (dst src : List (Option T)) (i j : Nat) :
    Option (List (Option T) × List (Option T)) :=
  match dst[i]?, src[j]? with
  | some a, some b => some (dst.set i b, src.set j a)
  | _, _ => none

/-- Model of `for i in 0..count { std::mem::swap(&mut dst[i], &mut src[f i]) }`
(`src/lib.rs:100-105`): iterations run for `i = 0, 1, ..., count - 1` in order.
The first loop of `split_owned` uses `f i = i`, the second `f i = i + K`. -/
def swap_loop {T : Type} (f : Nat → Nat) (dst src : List (Option T)) :
    Nat → Option (List (Option T) × List (Option T))
  | 0 => some (dst, src)
  | n + 1 =>
    match swap_loop f dst src n with
    | none => none
    | some (d, s) => mem_swap d s n (f n)

/-- Model of `MaybeUninit::assume_init` (`src/lib.rs:108-109`): reading an
uninitialized slot is undefined behaviour, modelled by `none`. -/
def assume_init {T : Type} (el : Option T) : Option T :=
  el

/-- Model of `arr.map(|el| unsafe { el.assume_init() })` over a whole array:
succeeds iff every slot of the array holds a value. -/
def assume_init_all {T : Type} (arr : List (Option T)) : Option (List T) :=
  arr.mapM assume_init

/-- Model of `fn split_owned<const K: usize, const L: usize>(self) -> ([T; K], [T; L])`
(`src/lib.rs:88-112`).  The element type `T` carries no instance argument at all,
mirroring the absence of any trait bound on `T` in the Rust source.

Step by step, following the source:
* the `const` assert: an instantiation failing `arity_check` does not build,
  hence has no run, modelled by the `none` result;
* `let mut arr = self.map(|el| MaybeUninit::new(el))`;
* `arr_k`, `arr_l` are arrays of uninitialized slots (`replicate _ none`);
* the two swap loops;
* the two `assume_init` maps, and the final pair. -/
def split_owned {T : Type} (K L : Nat) (source : List T) :
    Option (List T × List T) :=
  if arity_check source.length K L then
    let arr : List (Option T) := source.map (fun el => some el)
    let arr_k : List (Option T) := List.replicate K none
    let arr_l : List (Option T) := List.replicate L none
    match swap_loop (fun i => i) arr_k arr K with
    | none => none
    | some (arr_k, arr) =>
      match swap_loop (fun i => i + K) arr_l arr L with
      | none => none
      | some (arr_l, _arr) =>
        match assume_init_all arr_k, assume_init_all arr_l with
        | some k, some l => some (k, l)
        | _, _ => none
  else
    none

/-- An opaque stand-in for Rust's `f64` in the test scenarios: the split never
computes with the element values, it only relocates them, so the floating-point
numbers `0.0, 1.0, ..., 18.0` of the test `split_easy` are represented by their
integer values wrapped in a distinct type. -/
structure F64 where
  val : Int
deriving DecidableEq, Repr

/-! ## Helper lemmas -/

theorem getElem?_drop_add {α : Type} (l : List α) (n i : Nat) :
    (l.drop n)[i]? = l[n + i]? := by
  induction n generalizing l with
  | zero => simp
  | succ m ih =>
    cases l with
    | nil => simp
    | cons a t => simp [Nat.succ_add, ih t]

/-- The invariant of both swap loops of `split_owned`.  Starting from a
destination of `C` uninitialized slots and a source whose first `off` slots are
already emptied and whose remaining slots hold `rest`, after `m` iterations of
`swap(&mut dst[i], &mut src[i + off])`:
the first `m` destination slots hold the first `m` elements of `rest`, the other
destination slots are still uninitialized, and the first `off + m` source slots
are emptied.  In particular no iteration indexes out of bounds. -/
theorem swap_loop_invariant {T : Type} (off C : Nat) (rest : List T) :
    ∀ m, m ≤ C → m ≤ rest.length →
    swap_loop (fun i => i + off) (List.replicate C (none : Option T))
      (List.replicate off none ++ rest.map some) m
    = some ((rest.take m).map some ++ List.replicate (C - m) none,
            List.replicate (off + m) none ++ (rest.drop m).map some) := by
  intro m
  induction m with
  | zero => intro _ _; simp [swap_loop]
  | succ n ih =>
    intro hC hr
    have hnC : n < C := hC
    have hnr : n < rest.length := hr
    rw [swap_loop, ih (Nat.le_of_lt hnC) (Nat.le_of_lt hnr)]
    have hlen_take : ((rest.take n).map some).length = n := by
      simp [Nat.min_eq_left (Nat.le_of_lt hnr)]
    have hCn : C - n = (C - n - 1) + 1 := by omega
    have hdrop : rest.drop n = rest[n] :: rest.drop (n + 1) :=
      List.drop_eq_getElem_cons hnr
    have hsub : C - (n + 1) = C - n - 1 := by omega
    have hidx : n + off - (off + n) = 0 := by omega
    have hget_d :
        ((rest.take n).map some ++ List.replicate (C - n) (none : Option T))[n]?
          = some none := by
      rw [List.getElem?_append_right hlen_take.le, hlen_take, Nat.sub_self, hCn]
      simp
    have hget_s :
        (List.replicate (off + n) (none : Option T) ++ (rest.drop n).map some)[n + off]?
          = some (some rest[n]) := by
      rw [List.getElem?_append_right (by rw [List.length_replicate]; omega),
        List.length_replicate, hidx, hdrop]
      simp
    have hset_d :
        (((rest.take n).map some ++ List.replicate (C - n) (none : Option T)).set n
            (some rest[n]))
          = (rest.take (n + 1)).map some ++ List.replicate (C - (n + 1)) none := by
      rw [List.set_append_right _ _ hlen_take.le, hlen_take, Nat.sub_self, hCn,
        List.replicate_succ, List.set_cons_zero, List.take_succ,
        List.getElem?_eq_getElem hnr, Option.toList_some, List.map_append, hsub]
      simp [List.append_assoc]
    have hset_s :
        ((List.replicate (off + n) (none : Option T) ++ (rest.drop n).map some).set
            (n + off) none)
          = List.replicate (off + (n + 1)) none ++ (rest.drop (n + 1)).map some := by
      rw [List.set_append_right _ _ (by rw [List.length_replicate]; omega),
        List.length_replicate, hidx, hdrop]
      simp only [List.map_cons, List.set_cons_zero]
      rw [show off + (n + 1) = (off + n) + 1 by omega, List.replicate_succ' (off + n)]
      simp [List.append_assoc]
    simp only [mem_swap, hget_d, hget_s, hset_d, hset_s]

theorem assume_init_all_map_some {T : Type} (l : List T) :
    assume_init_all (l.map some) = some l := by
  induction l with
  | nil => rfl
  | cons a t ih =>
    simp only [List.map_cons, assume_init_all, List.mapM_cons] at ih ⊢
    rw [ih]
    rfl

/-- The first swap loop of `split_owned`, run to completion: the `K`-array ends
holding exactly the first `K` source elements and the first `K` source slots are
emptied.  The loop returns normally, so every index it used was in bounds. -/
theorem swap_loop_first {T : Type} (K L : Nat) (source : List T)
    (h : source.length = K + L) :
    swap_loop (fun i => i) (List.replicate K (none : Option T)) (source.map some) K
      = some ((source.take K).map some,
              List.replicate K none ++ (source.drop K).map some) := by
  have h1 := swap_loop_invariant 0 K source K (Nat.le_refl K) (by omega)
  rw [show (fun i : Nat => i + 0) = (fun i : Nat => i) from by funext i; simp] at h1
  simp only [List.replicate_zero, List.nil_append, Nat.zero_add, Nat.sub_self,
    List.append_nil] at h1
  exact h1

/-- The second swap loop of `split_owned`, run to completion from the state the
first loop leaves behind: the `L`-array ends holding exactly the last `L` source
elements and every one of the `K + L` source slots is emptied.  The loop returns
normally, so every index it used was in bounds. -/
theorem swap_loop_second {T : Type} (K L : Nat) (source : List T)
    (h : source.length = K + L) :
    swap_loop (fun i => i + K) (List.replicate L (none : Option T))
        (List.replicate K none ++ (source.drop K).map some) L
      = some ((source.drop K).map some, List.replicate (K + L) none) := by
  have h2 := swap_loop_invariant K L (source.drop K) L (Nat.le_refl L) (by simp [h])
  have hdK : (source.drop K).take L = source.drop K :=
    List.take_of_length_le (by simp [h])
  have hdK2 : (source.drop K).drop L = [] :=
    List.drop_eq_nil_of_le (by simp [h])
  rw [hdK, hdK2] at h2
  simp only [Nat.sub_self, List.replicate_zero, List.append_nil, List.map_nil] at h2
  exact h2

/-- Full characterization of `split_owned` on a well-built instantiation
(`source.length = K + L`): it returns normally, with the first `K` elements of
the source on the left and the remaining `L` elements on the right. -/
theorem split_owned_spec {T : Type} (K L : Nat) (source : List T)
    (h : source.length = K + L) :
    split_owned K L source = some (source.take K, source.drop K) := by
  have hb : arity_check source.length K L = true := by
    simp [arity_check, h]
  simp only [split_owned, hb, if_true, swap_loop_first K L source h,
    swap_loop_second K L source h, assume_init_all_map_some]

/-! ## Claims -/

/-- **C1.** For every element type `T`, all `K`, `L` and every source of length
`N = K + L`, `split_owned` returns a pair `(left, right)` where `left[i]` equals
`source[i]` for every `i < K`, `right[i]` equals `source[K + i]` for every
`i < L`, and `left ++ right` is element-wise equal, in order, to the source. -/
theorem c1_split_owned_partition {T : Type} (K L : Nat) (source : List T)
    (h : source.length = K + L) :
    ∃ left right, split_owned K L source = some (left, right)
      ∧ (∀ i, i < K → left[i]? = source[i]?)
      ∧ (∀ i, i < L → right[i]? = source[K + i]?)
      ∧ left ++ right = source := by
  refine ⟨source.take K, source.drop K, split_owned_spec K L source h, ?_, ?_,
    List.take_append_drop K source⟩
  · intro i hi
    exact List.getElem?_take_of_lt hi
  · intro i hi
    exact getElem?_drop_add source K i

theorem c1_split_owned_partition_witness :
    ∃ left right, split_owned 3 4 ([0, 1, 2, 3, 4, 5, 6] : List Int) = some (left, right)
      ∧ (∀ i, i < 3 → left[i]? = ([0, 1, 2, 3, 4, 5, 6] : List Int)[i]?)
      ∧ (∀ i, i < 4 → right[i]? = ([0, 1, 2, 3, 4, 5, 6] : List Int)[3 + i]?)
      ∧ left ++ right = [0, 1, 2, 3, 4, 5, 6] :=
  c1_split_owned_partition 3 4 [0, 1, 2, 3, 4, 5, 6] rfl

/-- **C2.** For every element type `T` — the theorem quantifies over an
arbitrary `T : Type` with no instance arguments, mirroring the absence of any
trait bound on `T` in `SplitOwned` — and every `N = K + L`, the two outputs
together hold exactly the `N` source elements: `left` has `K` elements, `right`
has `L`, and their concatenation is the source itself, so no element is
duplicated and none is lost. -/
theorem c2_split_owned_conservation {T : Type} (K L : Nat) (source : List T)
    (h : source.length = K + L) :
    ∃ left right, split_owned K L source = some (left, right)
      ∧ left.length = K ∧ right.length = L
      ∧ left ++ right = source := by
  refine ⟨source.take K, source.drop K, split_owned_spec K L source h, ?_, ?_,
    List.take_append_drop K source⟩
  · rw [List.length_take, h]
    omega
  · rw [List.length_drop, h]
    omega

theorem c2_split_owned_conservation_witness :
    ∃ left right, split_owned 3 4 ([10, 11, 12, 13, 14, 15, 16] : List Int)
        = some (left, right)
      ∧ left.length = 3 ∧ right.length = 4
      ∧ left ++ right = [10, 11, 12, 13, 14, 15, 16] :=
  c2_split_owned_conservation 3 4 [10, 11, 12, 13, 14, 15, 16] rfl

/-- **C3.** Under the precondition `N = K + L`, `split_owned` returns normally
on every input: no execution path panics (out-of-bounds indexing) or hits
undefined behaviour (`assume_init` on an empty slot) — all of which are
modelled by a `none` result. -/
theorem c3_split_owned_no_runtime_error {T : Type} (K L : Nat) (source : List T)
    (h : source.length = K + L) :
    (split_owned K L source).isSome = true := by
  rw [split_owned_spec K L source h]
  rfl

theorem c3_split_owned_no_runtime_error_witness :
    (split_owned 3 4 ([0, 1, 2, 3, 4, 5, 6] : List Int)).isSome = true :=
  c3_split_owned_no_runtime_error 3 4 [0, 1, 2, 3, 4, 5, 6] rfl

/-- **C4.** The `const { assert!(N == K + L) }` check fails for `N = 7, K = 2,
L = 4`, so that instantiation does not build; since the assertion is a `const`
block, a failing configuration has no run at all — modelled here by
`split_owned` yielding no result (`none`, never a recoverable value) for every
length-7 source under `K = 2, L = 4`. -/
theorem c4_arity_mismatch_rejected :
    arity_check 7 2 4 = false
      ∧ ∀ source : List Int, source.length = 7 → split_owned 2 4 source = none := by
  refine ⟨rfl, ?_⟩
  intro source hs
  simp [split_owned, arity_check, hs]

theorem c4_arity_mismatch_rejected_witness :
    arity_check 7 2 4 = false
      ∧ split_owned 2 4 ([0, 1, 2, 3, 4, 5, 6] : List Int) = none :=
  ⟨c4_arity_mismatch_rejected.1, c4_arity_mismatch_rejected.2 [0, 1, 2, 3, 4, 5, 6] rfl⟩

/-- **C5.** Degenerate splits are valid and produce correctly-typed empty
lists: `K = 0` yields an empty left and the full source on the right, `L = 0`
yields the symmetric case, and the empty source with `K = L = 0` yields two
empty outputs. -/
theorem c5_split_owned_degenerate {T : Type} (N : Nat) (source : List T)
    (h : source.length = N) :
    split_owned 0 N source = some ([], source)
      ∧ split_owned N 0 source = some (source, [])
      ∧ split_owned 0 0 ([] : List T) = some ([], []) := by
  refine ⟨?_, ?_, rfl⟩
  · have hs := split_owned_spec 0 N source (by omega)
    simpa using hs
  · have hs := split_owned_spec N 0 source (by omega)
    rw [hs, List.take_of_length_le (by omega), List.drop_eq_nil_of_le (by omega)]

theorem c5_split_owned_degenerate_witness :
    split_owned 0 6 ([0, 1, 2, 3, 4, 5] : List Int) = some ([], [0, 1, 2, 3, 4, 5])
      ∧ split_owned 6 0 ([0, 1, 2, 3, 4, 5] : List Int) = some ([0, 1, 2, 3, 4, 5], [])
      ∧ split_owned 0 0 ([] : List Int) = some ([], []) :=
  c5_split_owned_degenerate 6 [0, 1, 2, 3, 4, 5] rfl

/-- **C6.** Round trip through the degenerate splits: splitting a length-`N`
source with `K = 0, L = N` leaves the source unchanged on the right, and
re-splitting that right output with `K = N, L = 0` recovers the original with
an empty second half. -/
theorem c6_split_owned_roundtrip {T : Type} (N : Nat) (source : List T)
    (h : source.length = N) :
    ∃ right, split_owned 0 N source = some ([], right)
      ∧ split_owned N 0 right = some (source, []) := by
  refine ⟨source, ?_, ?_⟩
  · have hs := split_owned_spec 0 N source (by omega)
    simpa using hs
  · have hs := split_owned_spec N 0 source (by omega)
    rw [hs, List.take_of_length_le (by omega), List.drop_eq_nil_of_le (by omega)]

theorem c6_split_owned_roundtrip_witness :
    ∃ right, split_owned 0 6 ([0, 1, 2, 3, 4, 5] : List Int) = some ([], right)
      ∧ split_owned 6 0 right = some ([0, 1, 2, 3, 4, 5], []) :=
  c6_split_owned_roundtrip 6 [0, 1, 2, 3, 4, 5] rfl

/-- **C7.** The two concrete scenarios of the spec and the tests: the array
`[0, 1, 2, 3, 4, 5, 6]` split `3/4` gives `[0, 1, 2]` and `[3, 4, 5, 6]`; the
length-19 array of the values `0.0 .. 18.0` (test `split_easy`, represented by
the opaque `F64` wrapper) split `10/9` gives `0.0 .. 9.0` and `10.0 .. 18.0`. -/
theorem c7_split_owned_scenarios :
    split_owned 3 4 ([0, 1, 2, 3, 4, 5, 6] : List Int)
        = some ([0, 1, 2], [3, 4, 5, 6])
      ∧ split_owned 10 9 ((List.range 19).map (fun n => F64.mk n))
        = some ((List.range 10).map (fun n => F64.mk n),
                [⟨10⟩, ⟨11⟩, ⟨12⟩, ⟨13⟩, ⟨14⟩, ⟨15⟩, ⟨16⟩, ⟨17⟩, ⟨18⟩]) :=
  ⟨rfl, rfl⟩

/-- **C8.** No element is dropped during the split: the two loops only swap, so
after they finish every one of the `K + L` source slots is uninitialized
(`List.replicate (K + L) none` — discarding that storage invokes no per-element
cleanup), while the outputs hold each source element exactly once, still alive.
Both loops return `some`, so no intermediate state reads freed or absent
values. -/
theorem c8_split_owned_no_drop {T : Type} (K L : Nat) (source : List T)
    (h : source.length = K + L) :
    swap_loop (fun i => i) (List.replicate K (none : Option T)) (source.map some) K
        = some ((source.take K).map some,
                List.replicate K none ++ (source.drop K).map some)
      ∧ swap_loop (fun i => i + K) (List.replicate L (none : Option T))
          (List.replicate K none ++ (source.drop K).map some) L
        = some ((source.drop K).map some, List.replicate (K + L) none)
      ∧ (source.take K).map some ++ (source.drop K).map some = source.map some :=
  ⟨swap_loop_first K L source h, swap_loop_second K L source h, by
    rw [← List.map_append, List.take_append_drop]⟩

theorem c8_split_owned_no_drop_witness :
    swap_loop (fun i => i) (List.replicate 1 (none : Option Int))
        (([5, 6, 7] : List Int).map some) 1
        = some ((([5, 6, 7] : List Int).take 1).map some,
                List.replicate 1 none ++ (([5, 6, 7] : List Int).drop 1).map some)
      ∧ swap_loop (fun i => i + 1) (List.replicate 2 (none : Option Int))
          (List.replicate 1 none ++ (([5, 6, 7] : List Int).drop 1).map some) 2
        = some ((([5, 6, 7] : List Int).drop 1).map some, List.replicate (1 + 2) none)
      ∧ (([5, 6, 7] : List Int).take 1).map some ++ (([5, 6, 7] : List Int).drop 1).map some
        = ([5, 6, 7] : List Int).map some :=
  c8_split_owned_no_drop 1 2 [5, 6, 7] rfl

/-- **C9.** Under `N = K + L` every index used inside `split_owned` is in
bounds — each loop returns `some`, and `mem_swap` returns `none` on any
out-of-bounds access — each destination slot ends up holding the unique source
element assigned to it, and both final `assume_init` passes read only
initialized slots: `assume_init_all` succeeds on both destination arrays, so
the undefined-behaviour branch is unreachable. -/
theorem c9_split_owned_init_safe {T : Type} (K L : Nat) (source : List T)
    (h : source.length = K + L) :
    ∃ ak s1 al s2,
      swap_loop (fun i => i) (List.replicate K (none : Option T)) (source.map some) K
          = some (ak, s1)
        ∧ swap_loop (fun i => i + K) (List.replicate L (none : Option T)) s1 L
          = some (al, s2)
        ∧ assume_init_all ak = some (source.take K)
        ∧ assume_init_all al = some (source.drop K) :=
  ⟨(source.take K).map some, List.replicate K none ++ (source.drop K).map some,
    (source.drop K).map some, List.replicate (K + L) none,
    swap_loop_first K L source h, swap_loop_second K L source h,
    assume_init_all_map_some (source.take K), assume_init_all_map_some (source.drop K)⟩

theorem c9_split_owned_init_safe_witness :
    ∃ ak s1 al s2,
      swap_loop (fun i => i) (List.replicate 2 (none : Option Int))
          (([3, 4, 5] : List Int).map some) 2
          = some (ak, s1)
        ∧ swap_loop (fun i => i + 2) (List.replicate 1 (none : Option Int)) s1 1
          = some (al, s2)
        ∧ assume_init_all ak = some (([3, 4, 5] : List Int).take 2)
        ∧ assume_init_all al = some (([3, 4, 5] : List Int).drop 2) :=
  c9_split_owned_init_safe 2 1 [3, 4, 5] rfl

/-- **C10.** `split_owned` is a function of its input (deterministic by
construction), and each output half depends only on its own half of the input:
sources agreeing on indices `0 .. K` produce equal left outputs, and sources
agreeing on indices `K .. N` produce equal right outputs. -/
theorem c10_split_owned_noninterference {T : Type} (K L : Nat)
    (s1 s2 : List T) (h1 : s1.length = K + L) (h2 : s2.length = K + L) :
    (s1.take K = s2.take K →
      (split_owned K L s1).map Prod.fst = (split_owned K L s2).map Prod.fst)
      ∧ (s1.drop K = s2.drop K →
      (split_owned K L s1).map Prod.snd = (split_owned K L s2).map Prod.snd) := by
  constructor
  · intro hT
    rw [split_owned_spec K L s1 h1, split_owned_spec K L s2 h2]
    simp [hT]
  · intro hD
    rw [split_owned_spec K L s1 h1, split_owned_spec K L s2 h2]
    simp [hD]

theorem c10_split_owned_noninterference_witness :
    (split_owned 2 2 ([0, 1, 2, 3] : List Int)).map Prod.fst
      = (split_owned 2 2 ([0, 1, 9, 9] : List Int)).map Prod.fst :=
  (c10_split_owned_noninterference 2 2 [0, 1, 2, 3] [0, 1, 9, 9] rfl rfl).1 rfl

end SplitOwnedModel
